import Mathlib

set_option maxHeartbeats 1000000
set_option maxRecDepth 4000

/- Verification of the Wialon logistics uploader (`app2.py`) against its
   natural-language specification.

   Modelling conventions:
   * Python strings are modelled as `String` / `List Char`; the character-level
     primitives (`in`, `split`, `replace`, `strip`, `startswith`) are embedded
     over `List Char` with Python semantics.
   * Python floats are modelled as exact rationals; `float(...)` literals are
     parsed as decimal literals (optional sign, digits, optional fractional
     part).  None of the verified claims depends on binary rounding.
   * Raising Python code is embedded in `Except`; a cell coming out of
     `pdfplumber` is `Option String` (`none` = Python `None`), and `str(None)`
     is the string `"None"` as in Python.
   * Display side effects (`st.*`), `time.sleep` and the outbound HTTP
     requests are not state; remote responses enter as explicit oracles. -/

/-! ## Python string primitives over `List Char` -/

/-- `p` is a prefix of `s` (Python `s.startswith(p)` on explicit char lists). -/
def pyStartsWith : List Char → List Char → Bool
  | _, [] => true
  | [], _ :: _ => false
  | c :: s, p :: ps => c == p && pyStartsWith s ps

/-- Python `sub in s`: `sub` occurs as a contiguous substring of `s`. -/
def pyIn (sub : List Char) : List Char → Bool
  | [] => pyStartsWith [] sub
  | c :: rest => pyStartsWith (c :: rest) sub || pyIn sub rest

/-- Fuelled worker for Python `str.split(sep)` (left-to-right, non-overlapping
    scan).  Fuel `s.length + 1` always suffices. -/
def pySplitFuel (sep : List Char) : ℕ → List Char → List Char → List (List Char)
  | 0, s, acc => [acc.reverse ++ s]
  | _ + 1, [], acc => [acc.reverse]
  | fuel + 1, c :: rest, acc =>
    if !sep.isEmpty && pyStartsWith (c :: rest) sep then
      acc.reverse :: pySplitFuel sep fuel ((c :: rest).drop sep.length) []
    else
      pySplitFuel sep fuel rest (c :: acc)

/-- Python `s.split(sep)` for a non-empty separator. -/
def pySplitOn (s sep : List Char) : List (List Char) :=
  pySplitFuel sep (s.length + 1) s []

/-- Fuelled worker for Python `str.replace(old, new)` (left-to-right,
    non-overlapping scan). -/
def pyReplaceFuel (old new : List Char) : ℕ → List Char → List Char
  | 0, s => s
  | _ + 1, [] => []
  | fuel + 1, c :: rest =>
    if !old.isEmpty && pyStartsWith (c :: rest) old then
      new ++ pyReplaceFuel old new fuel ((c :: rest).drop old.length)
    else
      c :: pyReplaceFuel old new fuel rest

/-- Python `s.replace(old, new)` for a non-empty `old`. -/
def pyReplaceList (s old new : List Char) : List Char :=
  pyReplaceFuel old new (s.length + 1) s

/-- Python `s.strip()`: drop whitespace from both ends. -/
def pyStripList (l : List Char) : List Char :=
  ((l.dropWhile Char.isWhitespace).reverse.dropWhile Char.isWhitespace).reverse

/-! ## `float(...)` on decimal literals -/

/-- Value of a digit string (most significant first). -/
def digitsToNat (l : List Char) : ℕ :=
  l.foldl (fun n c => n * 10 + (c.toNat - '0'.toNat)) 0

/-- Rational value of `ip . fp` where `ip`/`fp` are digit strings. -/
def ratOfDigits (ip fp : List Char) : ℚ :=
  (digitsToNat ip : ℚ) + (digitsToNat fp : ℚ) / (10 : ℚ) ^ fp.length

/-- Unsigned part of a Python float literal: digits with an optional single
    `.` and fractional digits (`"2"`, `"2.5"`, `"2."`, `".5"`). -/
def pyFloatMag (l : List Char) : Option ℚ :=
  let ip := l.takeWhile Char.isDigit
  let rest := l.dropWhile Char.isDigit
  match rest with
  | [] => if ip.isEmpty then none else some (ratOfDigits ip [])
  | '.' :: fp =>
    if fp.all Char.isDigit && !(ip.isEmpty && fp.isEmpty) then
      some (ratOfDigits ip fp)
    else none
  | _ => none

/-- Python `float(s)` on an already-stripped char list: optional sign then a
    decimal magnitude.  (Exponents / `inf` / `nan` are outside the manifest's
    coordinate format and are not modelled.) -/
def pyFloatCore : List Char → Option ℚ
  | '-' :: r => (pyFloatMag r).map (fun q => -q)
  | '+' :: r => pyFloatMag r
  | l => pyFloatMag l

/-- Python `float(s)` on a string (Python strips surrounding whitespace). -/
def pyFloat (s : String) : Option ℚ :=
  pyFloatCore (pyStripList s.data)

/-! ## `extract_coordinates` (app2.py lines 14-23) -/

def latMarker : List Char := ['L', 'A', 'T', ':']

def longMarker : List Char := ['L', 'O', 'N', 'G', ':']

/-- Lines 14-23 of `app2.py` over a char list:
    ```
    try:
        if "LAT:" in coord_str and "LONG:" in coord_str:
            parts = coord_str.split("LONG:")
            lat = float(parts[0].replace("LAT:","").strip())
            lon = float(parts[1].strip())
            return lat, lon
    except Exception:
        pass
    return None, None
    ```
    The `try/except` is modelled by the `Option` results of `pyFloatCore`:
    any parse failure yields `(none, none)`, and the function is total. -/
def extractCoordList (l : List Char) : Option ℚ × Option ℚ :=
  if pyIn latMarker l && pyIn longMarker l then
    match pyFloatCore (pyStripList
            (pyReplaceList ((pySplitOn l longMarker).headD []) latMarker [])),
          pyFloatCore (pyStripList ((pySplitOn l longMarker).getD 1 [])) with
    | some la, some lo => (some la, some lo)
    | _, _ => (none, none)
  else (none, none)

/-- `extract_coordinates` on a Python string. -/
def extract_coordinates (s : String) : Option ℚ × Option ℚ :=
  extractCoordList s.data

/-! ## Lemmas about the string primitives -/

theorem pyStartsWith_rfl_append (p t : List Char) : pyStartsWith (p ++ t) p = true := by
  induction p with
  | nil => simp [pyStartsWith]
  | cons c p ih => simp [pyStartsWith, ih]

theorem pyIn_of_starts {sub l : List Char} (h : pyStartsWith l sub = true) :
    pyIn sub l = true := by
  cases l with
  | nil => simpa [pyIn] using h
  | cons c rest => simp [pyIn, h]

theorem pyIn_append (sub l1 l2 : List Char) : pyIn sub (l1 ++ (sub ++ l2)) = true := by
  induction l1 with
  | nil => simpa using pyIn_of_starts (pyStartsWith_rfl_append sub l2)
  | cons c l1' ih => simp [pyIn, ih]

theorem pyStartsWith_false_head {c pc : Char} (cs pcs : List Char) (h : c ≠ pc) :
    pyStartsWith (c :: cs) (pc :: pcs) = false := by
  simp [pyStartsWith, beq_eq_false_iff_ne.mpr h]

theorem pyStartsWith_drop_false {l : List Char} {hd : Char} (tail sepRest : List Char)
    (hmem : ∀ c ∈ l, c ≠ hd) :
    ∀ i, i < l.length → pyStartsWith (l.drop i ++ tail) (hd :: sepRest) = false := by
  intro i hi
  rw [List.drop_eq_getElem_cons hi, List.cons_append]
  exact pyStartsWith_false_head _ _ (hmem _ (l.getElem_mem hi))

theorem pySplitFuel_skip (sep : List Char) :
    ∀ (l1 tail acc : List Char) (fuel : ℕ), (l1 ++ tail).length + 1 ≤ fuel →
    (∀ i, i < l1.length → pyStartsWith (l1.drop i ++ tail) sep = false) →
    pySplitFuel sep fuel (l1 ++ tail) acc
      = pySplitFuel sep (fuel - l1.length) tail (l1.reverse ++ acc) := by
  intro l1
  induction l1 with
  | nil => intro tail acc fuel hf h; simp
  | cons c l1' ih =>
    intro tail acc fuel hf h
    cases fuel with
    | zero => simp at hf
    | succ f =>
      have h0 : pyStartsWith (c :: (l1' ++ tail)) sep = false := by
        simpa using h 0 (by simp)
      rw [List.cons_append]
      simp only [pySplitFuel, h0, Bool.and_false, if_false]
      have hf' : (l1' ++ tail).length + 1 ≤ f := by
        simp only [List.length_cons, List.length_append] at hf
        simp only [List.length_append]; omega
      rw [ih tail (c :: acc) f hf' (fun i hi => by simpa using h (i + 1) (by simp; omega))]
      simp [List.reverse_cons, List.append_assoc, Nat.succ_sub_succ]

theorem pySplitFuel_hit (sep l2 acc : List Char) (f : ℕ) (hsep : sep ≠ []) :
    pySplitFuel sep (f + 1) (sep ++ l2) acc = acc.reverse :: pySplitFuel sep f l2 [] := by
  obtain ⟨s0, ss, rfl⟩ := List.exists_cons_of_ne_nil hsep
  have hx : pyStartsWith (s0 :: (ss ++ l2)) (s0 :: ss) = true := by
    simpa using pyStartsWith_rfl_append (s0 :: ss) l2
  rw [List.cons_append]
  simp only [pySplitFuel, hx, List.isEmpty_cons, Bool.not_false, Bool.true_and, if_true]
  have hdrop : (s0 :: (ss ++ l2)).drop (s0 :: ss).length = l2 := by
    have hshape : s0 :: (ss ++ l2) = (s0 :: ss) ++ l2 := by simp
    rw [hshape, List.drop_left]
  rw [hdrop]

theorem pySplitFuel_no_occ (sep : List Char) :
    ∀ (l acc : List Char) (fuel : ℕ), l.length + 1 ≤ fuel →
    (∀ i, i < l.length → pyStartsWith (l.drop i) sep = false) →
    pySplitFuel sep fuel l acc = [acc.reverse ++ l] := by
  intro l
  induction l with
  | nil =>
    intro acc fuel hf h
    cases fuel with
    | zero => simp at hf
    | succ f => simp [pySplitFuel]
  | cons c rest ih =>
    intro acc fuel hf h
    cases fuel with
    | zero => simp at hf
    | succ f =>
      have h0 : pyStartsWith (c :: rest) sep = false := by simpa using h 0 (by simp)
      simp only [pySplitFuel, h0, Bool.and_false, if_false]
      have hf' : rest.length + 1 ≤ f := by
        simp only [List.length_cons] at hf; omega
      rw [ih (c :: acc) f hf' (fun i hi => by simpa using h (i + 1) (by simp; omega))]
      simp

theorem pySplitOn_pair (sep l1 l2 : List Char) (hsep : sep ≠ [])
    (h1 : ∀ i, i < l1.length → pyStartsWith (l1.drop i ++ (sep ++ l2)) sep = false)
    (h2 : ∀ i, i < l2.length → pyStartsWith (l2.drop i) sep = false) :
    pySplitOn (l1 ++ (sep ++ l2)) sep = [l1, l2] := by
  unfold pySplitOn
  rw [pySplitFuel_skip sep l1 (sep ++ l2) [] _ (le_refl _) h1]
  have hlen : (l1 ++ (sep ++ l2)).length + 1 - l1.length = (sep.length + l2.length) + 1 := by
    simp only [List.length_append]; omega
  rw [hlen, pySplitFuel_hit sep l2 _ _ hsep]
  have hfuel : l2.length + 1 ≤ sep.length + l2.length := by
    have := List.length_pos.mpr hsep; omega
  rw [pySplitFuel_no_occ sep l2 [] _ hfuel h2]
  simp

theorem pyReplaceFuel_no_occ (old new : List Char) :
    ∀ (t : List Char) (fuel : ℕ),
    (∀ i, i < t.length → pyStartsWith (t.drop i) old = false) →
    pyReplaceFuel old new fuel t = t := by
  intro t
  induction t with
  | nil => intro fuel h; cases fuel <;> simp [pyReplaceFuel]
  | cons c rest ih =>
    intro fuel h
    cases fuel with
    | zero => simp [pyReplaceFuel]
    | succ f =>
      have h0 : pyStartsWith (c :: rest) old = false := by simpa using h 0 (by simp)
      simp only [pyReplaceFuel, h0, Bool.and_false, if_false]
      rw [ih f (fun i hi => by simpa using h (i + 1) (by simp; omega))]
      simp

theorem pyReplace_strip_head (old t : List Char) (hold : old ≠ [])
    (h : ∀ i, i < t.length → pyStartsWith (t.drop i) old = false) :
    pyReplaceList (old ++ t) old [] = t := by
  unfold pyReplaceList
  obtain ⟨o0, os, rfl⟩ := List.exists_cons_of_ne_nil hold
  have hx : pyStartsWith (o0 :: (os ++ t)) (o0 :: os) = true := by
    simpa using pyStartsWith_rfl_append (o0 :: os) t
  rw [List.cons_append]
  simp only [pyReplaceFuel, hx, List.isEmpty_cons, Bool.not_false, Bool.true_and, if_true]
  have hdrop : (o0 :: (os ++ t)).drop (o0 :: os).length = t := by
    have hshape : o0 :: (os ++ t) = (o0 :: os) ++ t := by simp
    rw [hshape, List.drop_left]
  rw [hdrop, pyReplaceFuel_no_occ _ _ _ _ h]
  simp

theorem pyStrip_clean_of_no_ws (x : List Char)
    (hws : ∀ c ∈ x, c.isWhitespace = false) : pyStripList x = x := by
  unfold pyStripList
  have h1 : x.dropWhile Char.isWhitespace = x := by
    cases x with
    | nil => rfl
    | cons c rest => rw [List.dropWhile_cons_of_neg]; simp [hws c (by simp)]
  rw [h1]
  have h2 : x.reverse.dropWhile Char.isWhitespace = x.reverse := by
    cases hxr : x.reverse with
    | nil => rfl
    | cons d y =>
      rw [List.dropWhile_cons_of_neg]
      have hd : d ∈ x := by
        have : d ∈ x.reverse := by rw [hxr]; simp
        simpa using this
      simp [hws d hd]
  rw [h2, List.reverse_reverse]

theorem pyStrip_pad_both (x : List Char) (hne : x ≠ [])
    (hws : ∀ c ∈ x, c.isWhitespace = false) :
    pyStripList (' ' :: (x ++ [' '])) = x := by
  unfold pyStripList
  obtain ⟨c, x', rfl⟩ := List.exists_cons_of_ne_nil hne
  have h1 : (' ' :: ((c :: x') ++ [' '])).dropWhile Char.isWhitespace
      = (c :: x') ++ [' '] := by
    rw [List.dropWhile_cons_of_pos (by decide)]
    rw [List.cons_append, List.dropWhile_cons_of_neg]
    simp [hws c (by simp)]
  rw [h1]
  have h2 : ((c :: x') ++ [' ']).reverse = ' ' :: (c :: x').reverse := by simp
  rw [h2, List.dropWhile_cons_of_pos (by decide)]
  have hrne : (c :: x').reverse ≠ [] := by simp
  obtain ⟨d, y, hxr⟩ := List.exists_cons_of_ne_nil hrne
  rw [hxr, List.dropWhile_cons_of_neg]
  · rw [← hxr, List.reverse_reverse]
  · have hd : d ∈ c :: x' := by
      have hm : d ∈ (c :: x').reverse := by rw [hxr]; simp
      exact List.mem_reverse.mp hm
    simp [hws d hd]

theorem pyStrip_pad_left (x : List Char) (hne : x ≠ [])
    (hws : ∀ c ∈ x, c.isWhitespace = false) :
    pyStripList (' ' :: x) = x := by
  unfold pyStripList
  obtain ⟨c, x', rfl⟩ := List.exists_cons_of_ne_nil hne
  have h1 : (' ' :: (c :: x')).dropWhile Char.isWhitespace = c :: x' := by
    rw [List.dropWhile_cons_of_pos (by decide), List.dropWhile_cons_of_neg]
    simp [hws c (by simp)]
  rw [h1]
  have hrne : (c :: x').reverse ≠ [] := by simp
  obtain ⟨d, y, hxr⟩ := List.exists_cons_of_ne_nil hrne
  rw [hxr, List.dropWhile_cons_of_neg]
  · rw [← hxr, List.reverse_reverse]
  · have hd : d ∈ c :: x' := by
      have hm : d ∈ (c :: x').reverse := by rw [hxr]; simp
      exact List.mem_reverse.mp hm
    simp [hws d hd]

/-! ## Character classes of accepted float literals -/

/-- Characters that can appear in a decimal float literal. -/
def numChar (c : Char) : Bool :=
  c.isDigit || c == '-' || c == '+' || c == '.'

theorem numChar_ne_L {c : Char} (h : numChar c = true) : c ≠ 'L' := by
  intro hc
  rw [hc] at h
  exact absurd h (by decide)

theorem numChar_not_ws {c : Char} (h : numChar c = true) : c.isWhitespace = false := by
  by_contra hw
  have hw' : c.isWhitespace = true := by
    cases hx : c.isWhitespace
    · exact absurd hx hw
    · rfl
  have hcases : ((c = ' ' ∨ c = '\t') ∨ c = '\r') ∨ c = '\n' := by
    simpa [Char.isWhitespace] using hw'
  rcases hcases with ((rfl | rfl) | rfl) | rfl <;> exact absurd h (by decide)

theorem digit_numChar {c : Char} (h : c.isDigit = true) : numChar c = true := by
  simp [numChar, h]

theorem mem_takeWhile_digit {c : Char} {l : List Char}
    (h : c ∈ l.takeWhile Char.isDigit) : c.isDigit = true :=
  List.mem_takeWhile_imp h

theorem pyFloatMag_chars {l : List Char} {q : ℚ} (h : pyFloatMag l = some q) :
    l ≠ [] ∧ ∀ c ∈ l, (c.isDigit || c == '.') = true := by
  have hsplit := List.takeWhile_append_dropWhile Char.isDigit l
  simp only [pyFloatMag] at h
  split at h
  · next heq =>
    split at h
    · exact absurd h (by simp)
    · next hip =>
      rw [← hsplit, heq, List.append_nil]
      refine ⟨by simpa using hip, fun c hc => ?_⟩
      simp [mem_takeWhile_digit hc]
  · next fp heq =>
    split at h
    · next hcond =>
      simp only [Bool.and_eq_true] at hcond
      rw [← hsplit, heq]
      constructor
      · simp
      · intro c hc
        rcases List.mem_append.mp hc with hc | hc
        · simp [mem_takeWhile_digit hc]
        · rcases List.mem_cons.mp hc with rfl | hc
          · simp
          · have := (List.all_eq_true.mp hcond.1) c hc
            simp [this]
    · exact absurd h (by simp)
  · exact absurd h (by simp)

theorem magChar_numChar {c : Char} (h : (c.isDigit || c == '.') = true) :
    numChar c = true := by
  rcases (by simpa using h : c.isDigit = true ∨ c = '.') with hd | rfl
  · exact digit_numChar hd
  · decide

theorem pyFloatCore_chars {l : List Char} {q : ℚ} (h : pyFloatCore l = some q) :
    l ≠ [] ∧ ∀ c ∈ l, numChar c = true := by
  unfold pyFloatCore at h
  split at h
  · next r =>
    rcases Option.map_eq_some'.mp h with ⟨q', hq', _⟩
    obtain ⟨-, hchars⟩ := pyFloatMag_chars hq'
    refine ⟨by simp, fun c hc => ?_⟩
    rcases List.mem_cons.mp hc with rfl | hc
    · decide
    · exact magChar_numChar (hchars c hc)
  · next r =>
    obtain ⟨-, hchars⟩ := pyFloatMag_chars h
    refine ⟨by simp, fun c hc => ?_⟩
    rcases List.mem_cons.mp hc with rfl | hc
    · decide
    · exact magChar_numChar (hchars c hc)
  · next hne1 hne2 =>
    obtain ⟨hne, hchars⟩ := pyFloatMag_chars h
    refine ⟨hne, fun c hc => ?_⟩
    exact magChar_numChar (hchars c hc)

/-! ## Claim C7: behaviour of the coordinate parser -/

/-- C7: for every input of the form `LAT: a LONG: b` whose payloads `a`, `b`
    parse as (decimal) numbers, `extract_coordinates` returns exactly the pair
    `(a, b)`; for every string missing either marker it returns both
    components absent; and whenever either payload fails to parse as a float
    it also returns both components absent.  Totality of `extractCoordList`
    (the code never raises: line 21-22 swallows every exception) is inherent
    in the embedding, whose result type is a pair of `Option`s. -/
theorem C7_extract_coordinates :
    (∀ (sa sb : List Char) (a b : ℚ), pyFloatCore sa = some a → pyFloatCore sb = some b →
      extractCoordList (latMarker ++ (' ' :: (sa ++ (' ' :: (longMarker ++ (' ' :: sb))))))
        = (some a, some b)) ∧
    (∀ l : List Char, pyIn latMarker l = false ∨ pyIn longMarker l = false →
      extractCoordList l = (none, none)) ∧
    (∀ l : List Char,
      pyFloatCore (pyStripList
          (pyReplaceList ((pySplitOn l longMarker).headD []) latMarker [])) = none ∨
        pyFloatCore (pyStripList ((pySplitOn l longMarker).getD 1 [])) = none →
      extractCoordList l = (none, none)) := by
  refine ⟨?_, ?_, ?_⟩
  · intro sa sb a b ha hb
    obtain ⟨hsa_ne, hsa⟩ := pyFloatCore_chars ha
    obtain ⟨hsb_ne, hsb⟩ := pyFloatCore_chars hb
    have hshape : latMarker ++ (' ' :: (sa ++ (' ' :: (longMarker ++ (' ' :: sb)))))
        = ('L' :: 'A' :: 'T' :: ':' :: ' ' :: (sa ++ [' ']))
          ++ (longMarker ++ (' ' :: sb)) := by
      simp [latMarker]
    have hl1chars : ∀ c ∈ ('A' :: 'T' :: ':' :: ' ' :: (sa ++ [' '])), c ≠ 'L' := by
      intro c hc
      simp only [List.mem_cons, List.mem_append, List.mem_singleton,
        List.not_mem_nil, or_false] at hc
      rcases hc with rfl | rfl | rfl | rfl | hc | rfl
      · decide
      · decide
      · decide
      · decide
      · exact numChar_ne_L (hsa c hc)
      · decide
    have hl2chars : ∀ c ∈ (' ' :: sb), c ≠ 'L' := by
      intro c hc
      rcases List.mem_cons.mp hc with rfl | hc
      · decide
      · exact numChar_ne_L (hsb c hc)
    have hAO : ('A' == 'O') = false := by decide
    have h1 : ∀ i, i < ('L' :: 'A' :: 'T' :: ':' :: ' ' :: (sa ++ [' '])).length →
        pyStartsWith (('L' :: 'A' :: 'T' :: ':' :: ' ' :: (sa ++ [' '])).drop i
          ++ (longMarker ++ (' ' :: sb))) longMarker = false := by
      intro i hi
      cases i with
      | zero => simp [pyStartsWith, longMarker, hAO]
      | succ j =>
        have hj : j < ('A' :: 'T' :: ':' :: ' ' :: (sa ++ [' '])).length := by
          simp only [List.length_cons] at hi ⊢; omega
        have := pyStartsWith_drop_false (longMarker ++ (' ' :: sb))
          ['O', 'N', 'G', ':'] hl1chars j hj
        simpa [longMarker] using this
    have h2 : ∀ i, i < (' ' :: sb).length →
        pyStartsWith ((' ' :: sb).drop i) longMarker = false := by
      intro i hi
      have := pyStartsWith_drop_false [] ['O', 'N', 'G', ':'] hl2chars i hi
      simpa [longMarker] using this
    have hsplit : pySplitOn (('L' :: 'A' :: 'T' :: ':' :: ' ' :: (sa ++ [' ']))
        ++ (longMarker ++ (' ' :: sb))) longMarker
        = [('L' :: 'A' :: 'T' :: ':' :: ' ' :: (sa ++ [' '])), (' ' :: sb)] :=
      pySplitOn_pair longMarker _ _ (by simp [longMarker]) h1 h2
    have hlat2 : pyIn latMarker (('L' :: 'A' :: 'T' :: ':' :: ' ' :: (sa ++ [' ']))
        ++ (longMarker ++ (' ' :: sb))) = true := by
      have h3 : ('L' :: 'A' :: 'T' :: ':' :: ' ' :: (sa ++ [' ']))
          ++ (longMarker ++ (' ' :: sb))
          = latMarker ++ ((' ' :: (sa ++ [' '])) ++ (longMarker ++ (' ' :: sb))) := by
        simp [latMarker]
      rw [h3]
      have := pyIn_append latMarker []
        ((' ' :: (sa ++ [' '])) ++ (longMarker ++ (' ' :: sb)))
      simpa using this
    have hlong2 : pyIn longMarker (('L' :: 'A' :: 'T' :: ':' :: ' ' :: (sa ++ [' ']))
        ++ (longMarker ++ (' ' :: sb))) = true :=
      pyIn_append longMarker _ _
    have hrepl : pyReplaceList ('L' :: 'A' :: 'T' :: ':' :: ' ' :: (sa ++ [' ']))
        latMarker [] = ' ' :: (sa ++ [' ']) := by
      have h4 : ('L' :: 'A' :: 'T' :: ':' :: ' ' :: (sa ++ [' ']))
          = latMarker ++ (' ' :: (sa ++ [' '])) := by simp [latMarker]
      rw [h4]
      apply pyReplace_strip_head latMarker _ (by simp [latMarker])
      intro i hi
      have hmem : ∀ c ∈ (' ' :: (sa ++ [' '])), c ≠ 'L' := by
        intro c hc
        rcases List.mem_cons.mp hc with rfl | hc
        · decide
        · rcases List.mem_append.mp hc with hs | hs
          · exact numChar_ne_L (hsa c hs)
          · simp at hs; subst hs; decide
      have := pyStartsWith_drop_false [] ['A', 'T', ':'] hmem i hi
      simpa [latMarker] using this
    have hws_sa : ∀ c ∈ sa, c.isWhitespace = false := fun c hc => numChar_not_ws (hsa c hc)
    have hws_sb : ∀ c ∈ sb, c.isWhitespace = false := fun c hc => numChar_not_ws (hsb c hc)
    rw [hshape]
    simp only [extractCoordList, hlat2, hlong2, Bool.and_self, if_true]
    rw [hsplit]
    simp only [List.headD_cons, List.getD_cons_succ, List.getD_cons_zero]
    rw [hrepl, pyStrip_pad_both sa hsa_ne hws_sa, pyStrip_pad_left sb hsb_ne hws_sb,
      ha, hb]
  · intro l h
    rcases h with h | h <;>
      simp [extractCoordList, h]
  · intro l h
    by_cases hc : (pyIn latMarker l && pyIn longMarker l) = true
    · simp only [extractCoordList, hc, if_true]
      rcases h with h | h
      · rw [h]
      · rw [h]
        cases pyFloatCore (pyStripList
          (pyReplaceList ((pySplitOn l longMarker).headD []) latMarker [])) <;> rfl
    · simp only [extractCoordList]
      rw [if_neg (by simpa using hc)]

/-- Witness for C7 at the concrete coordinate string `LAT: 1.5 LONG: 2`. -/
theorem C7_extract_coordinates_witness :
    extractCoordList (latMarker ++ (' ' :: (['1', '.', '5']
        ++ (' ' :: (longMarker ++ (' ' :: ['2'])))))) = (some (3 / 2 : ℚ), some 2) :=
  C7_extract_coordinates.1 ['1', '.', '5'] ['2'] (3 / 2) 2
    (by
      have h : ratOfDigits ['1'] ['5'] = (3 / 2 : ℚ) := by
        unfold ratOfDigits
        rw [show digitsToNat ['1'] = 1 from rfl, show digitsToNat ['5'] = 5 from rfl]
        norm_num
      calc pyFloatCore ['1', '.', '5'] = some (ratOfDigits ['1'] ['5']) := rfl
      _ = some (3 / 2 : ℚ) := by rw [h])
    (by
      have h : ratOfDigits ['2'] [] = (2 : ℚ) := by
        unfold ratOfDigits
        rw [show digitsToNat ['2'] = 2 from rfl, show digitsToNat [] = 0 from rfl]
        norm_num
      calc pyFloatCore ['2'] = some (ratOfDigits ['2'] []) := rfl
      _ = some (2 : ℚ) := by rw [h])

/-! ## Python string operations on `String`

    Core `String` functions (`replace`, `trim`, …) are implemented with
    well-founded loops and do not reduce in the kernel, so the embedding
    routes every Python string method through the `List Char` primitives
    above. -/

def pyIsEmpty (s : String) : Bool := s.data.isEmpty

def pyTrim (s : String) : String := ⟨pyStripList s.data⟩

/-- Python `str.upper()` (the manifest data is ASCII). -/
def pyUpper (s : String) : String := ⟨s.data.map Char.toUpper⟩

/-- Python `str.lower()` (the manifest data is ASCII). -/
def pyLower (s : String) : String := ⟨s.data.map Char.toLower⟩

def pyReplaceStr (s old new : String) : String := ⟨pyReplaceList s.data old.data new.data⟩

def pyStartsWithStr (s p : String) : Bool := pyStartsWith s.data p.data

/-- Python `pat in s` on strings. -/
def strHasSub (s pat : String) : Bool := pyIn pat.data s.data

/-! ## `read_pdf_to_df` (app2.py lines 25-56)

    The embedding covers the extraction and filtering pipeline: header scan
    and row harvesting (lines 29-41), the fatal `ValueError` (lines 43-44),
    DataFrame construction and the row/column filters (lines 46-53), and
    coordinate extraction with the LAT/LONG `dropna` (lines 55-56).  The
    remaining lines 58-68 (DBSCAN labels, the county spatial join, the sort
    and the display) only append metadata and reorder rows — they drop no
    record; clustering is modelled separately (`spatialCluster`). -/

/-- A `pdfplumber` cell: `None` or a string. -/
abbrev Cell := Option String

abbrev RawRow := List Cell

abbrev RawTable := List RawRow

abbrev RawPage := List RawTable

/-- Python `str(cell)`: `str(None)` is `"None"`. -/
def pyStr : Cell → String
  | none => "None"
  | some s => s

/-- Python truthiness of a cell (`None` and `""` are falsy). -/
def truthyCell : Cell → Bool
  | none => false
  | some s => !pyIsEmpty s

/-- Line 35: `row and row[0] and not row[0].startswith("Sales Order Booking")`. -/
def headerCandidate (row : RawRow) : Bool :=
  match row with
  | [] => false
  | c :: _ => truthyCell c && !pyStartsWithStr (pyStr c) "Sales Order Booking"

/-- Lines 26-27: `[str(c).replace("\n"," ").strip() for c in cols if c]`. -/
def clean_column_names (cols : List Cell) : List String :=
  (cols.filter truthyCell).map (fun c => pyTrim (pyReplaceStr (pyStr c) "\n" " "))

/-- Line 41 row filter: `any(str(c).strip() for c in r)`.  Note that a `None`
    cell renders as the truthy string `"None"`, exactly as in Python. -/
def rowNonblank (r : RawRow) : Bool :=
  r.any (fun c => !pyIsEmpty (pyTrim (pyStr c)))

/-- Lines 32-41, body of the per-table loop, threading the
    `(header, all_rows)` state. -/
def processTable (i : ℕ) (st : Option (List String) × List RawRow) (tbl : RawTable) :
    Option (List String) × List RawRow :=
  if i == 0 && st.1.isNone then
    match tbl.find? headerCandidate with
    | some hrow => (some (clean_column_names hrow), st.2 ++ (tbl.drop 1).filter rowNonblank)
    | none => st
  else (st.1, st.2 ++ tbl.filter rowNonblank)

/-- Lines 31-41: `for i, pg in enumerate(pdf.pages): for tbl in ...`. -/
def scanPagesFrom : ℕ → Option (List String) × List RawRow → List RawPage →
    Option (List String) × List RawRow
  | _, st, [] => st
  | i, st, pg :: rest => scanPagesFrom (i + 1) (pg.foldl (processTable i) st) rest

def scanPages (pages : List RawPage) : Option (List String) × List RawRow :=
  scanPagesFrom 0 (none, []) pages

/-- Line 12. -/
def REQUIRED_COLUMNS : List String :=
  ["REP", "CUSTOMER ID", "CUSTOMER NAME", "LOCATION", "COORDINATES",
   "INVOICE NO.", "AMOUNT", "TONNAGE"]

/-- Line 48 noise test on one cell: case-insensitive regex
    `Fixed|Driver Sign|Mileage|Cartons` (after `astype(str)`). -/
def noiseCell (c : Cell) : Bool :=
  strHasSub (pyLower (pyStr c)) "fixed" || strHasSub (pyLower (pyStr c)) "driver sign" ||
    strHasSub (pyLower (pyStr c)) "mileage" || strHasSub (pyLower (pyStr c)) "cartons"

/-- Line 47 test on one row: some cell equals a `REQUIRED_COLUMNS` token
    after `strip().upper()`. -/
def reqEchoRow (r : RawRow) : Bool :=
  r.any (fun c => REQUIRED_COLUMNS.contains (pyUpper (pyTrim (pyStr c))))

/-- Line 48 test on one row. -/
def noiseRow (r : RawRow) : Bool := r.any noiseCell

/-- Line 52 regex `\s*\n\s*` → `" "`: each maximal whitespace run containing
    a newline collapses to a single space (fuelled scan). -/
def collapseNlFuel : ℕ → List Char → List Char
  | 0, l => l
  | _ + 1, [] => []
  | fuel + 1, c :: rest =>
    if c.isWhitespace then
      if ((c :: rest).takeWhile Char.isWhitespace).contains '\n' then
        ' ' :: collapseNlFuel fuel ((c :: rest).dropWhile Char.isWhitespace)
      else
        ((c :: rest).takeWhile Char.isWhitespace) ++
          collapseNlFuel fuel ((c :: rest).dropWhile Char.isWhitespace)
    else c :: collapseNlFuel fuel rest

/-- Lines 51-52 on one cell: `astype(str)`, collapse embedded newlines,
    `strip()`. -/
def cleanCellStr (s : String) : String :=
  ⟨pyStripList (collapseNlFuel s.data.length s.data)⟩

/-- Line 46: `clean_column_names` applied a second time to the header
    strings (dropping names that cleaned to `""` the first time). -/
def dfCols (cols : List String) : List String :=
  (cols.filter (fun c => !pyIsEmpty c)).map (fun c => pyTrim (pyReplaceStr c "\n" " "))

/-- Line 49: indices and names of the columns kept (case-insensitive match
    against `REQUIRED_COLUMNS`). -/
def keptCols (cols2 : List String) : List (ℕ × String) :=
  cols2.enum.filter (fun p => REQUIRED_COLUMNS.contains (pyUpper (pyTrim p.2)))

/-- Line 50: the kept column names, upper-cased and stripped. -/
def finalCols (cols : List String) : List String :=
  (keptCols (dfCols cols)).map (fun p => pyUpper (pyTrim p.2))

/-- Lines 49-52 on one row: restrict to the kept columns and clean each cell. -/
def cleanRow (cols : List String) (r : RawRow) : List String :=
  (keptCols (dfCols cols)).map (fun p => cleanCellStr (pyStr (r.getD p.1 none)))

inductive ExtractErr where
  | parse (msg : String)
  | frame (msg : String)
  | keyErr (k : String)
deriving DecidableEq

/-- Lines 46-56 (everything after the fatal check).  Line 53
    (`df[df["CUSTOMER ID"].notna()].dropna(how="all")`) is the identity:
    after the `astype(str)` of lines 51-52 every cell is a string, so
    `notna()` holds everywhere and `dropna` finds no missing values. -/
def afterHeader (cols : List String) (rows : List RawRow) :
    Except ExtractErr (List String × List (List String × ℚ × ℚ)) :=
  if rows.any (fun r => r.length != (dfCols cols).length) then
    .error (.frame "DataFrame columns mismatch")
  else
    match (finalCols cols).enum.find? (fun p => p.2 == "COORDINATES") with
    | none => .error (.keyErr "COORDINATES")
    | some ci =>
      .ok (finalCols cols,
        (((rows.filter (fun r => !reqEchoRow r)).filter (fun r => !noiseRow r)).map
          (cleanRow cols)).filterMap (fun r =>
            match extract_coordinates (r.getD ci.1 "") with
            | (some la, some lo) => some (r, la, lo)
            | _ => none))

/-- Python `if not header` — `None` and the empty list are both falsy. -/
def headerFalsy : Option (List String) → Bool
  | none => true
  | some cols => cols.isEmpty

deriving instance DecidableEq for Except

/-- Lines 25-56 of `read_pdf_to_df`.  Line 43:
    `if not header or not all_rows: raise ValueError(...)`. -/
def read_pdf_to_df (pages : List RawPage) :
    Except ExtractErr (List String × List (List String × ℚ × ℚ)) :=
  if headerFalsy (scanPages pages).1 || (scanPages pages).2.isEmpty then
    .error (.parse "PDF parsing failed — no valid data found.")
  else afterHeader ((scanPages pages).1.getD []) (scanPages pages).2

/-! ## Claim C2: when is the fatal "no valid data found" error raised? -/

theorem afterHeader_ne_parse (cols : List String) (rows : List RawRow) (m : String) :
    afterHeader cols rows ≠ .error (.parse m) := by
  unfold afterHeader
  split
  · intro h
    exact ExtractErr.noConfusion (Except.error.inj h)
  · split
    · intro h
      exact ExtractErr.noConfusion (Except.error.inj h)
    · intro h
      exact Except.noConfusion h

/-- C2 (amended): `read_pdf_to_df` raises the `ValueError`
    `"PDF parsing failed — no valid data found."` iff no (non-empty) header
    was located or no row survives the blank-row filter of the harvesting
    loop (lines 29-41).  Rows eliminated only by the later filters of
    lines 47-56 (repeated-header, noise-marker, customer-id, coordinates) do
    **not** trigger this error: the check at line 43 runs before those
    filters. -/
theorem C2_parse_error_iff (pages : List RawPage) :
    read_pdf_to_df pages = .error (.parse "PDF parsing failed — no valid data found.")
      ↔ (headerFalsy (scanPages pages).1 = true ∨ (scanPages pages).2 = []) := by
  unfold read_pdf_to_df
  by_cases hc : (headerFalsy (scanPages pages).1 || (scanPages pages).2.isEmpty) = true
  · rw [if_pos hc]
    simp only [true_iff]
    rcases Bool.or_eq_true _ _ ▸ hc with h | h
    · exact Or.inl h
    · exact Or.inr (List.isEmpty_iff.mp h)
  · rw [if_neg hc]
    constructor
    · intro h
      exact absurd h (afterHeader_ne_parse _ _ _)
    · intro h
      rcases h with h | h
      · exact absurd (by simp [h]) hc
      · exact absurd (by simp [h]) hc

def c2Header : RawRow :=
  [some "REP", some "CUSTOMER ID", some "CUSTOMER NAME", some "LOCATION",
   some "COORDINATES", some "INVOICE NO.", some "AMOUNT", some "TONNAGE"]

/-- A data row carrying a noise marker (`Mileage`), dropped by the line 48
    filter. -/
def c2NoiseRow : RawRow :=
  [some "Total Mileage", some "x", some "y", some "z", some "w", some "v",
   some "u", some "t"]

/-- C2 counterexample: a table whose only data row is removed by the noise
    filter does **not** produce the "no valid data found" parse error (the
    claim says it must); extraction instead returns an empty record set (the
    real run then fails later, at clustering, with a different error). -/
theorem C2_counterexample :
    read_pdf_to_df [[[c2Header, c2NoiseRow]]] = .ok (REQUIRED_COLUMNS, []) ∧
    ∀ m, read_pdf_to_df [[[c2Header, c2NoiseRow]]] ≠ .error (.parse m) := by
  refine ⟨by decide, ?_⟩
  intro m h
  rw [(by decide : read_pdf_to_df [[[c2Header, c2NoiseRow]]]
    = Except.ok (REQUIRED_COLUMNS, []))] at h
  exact Except.noConfusion h

/-! ## Claim C4: the customer-id filter -/

def c4Header : RawRow :=
  [some "REP", some "CUSTOMER ID", some "CUSTOMER NAME", some "LOCATION",
   some "COORDINATES", some "INVOICE NO.", some "AMOUNT", some "TONNAGE"]

/-- A data row whose CUSTOMER ID cell is the empty string but whose
    coordinates parse. -/
def c4EmptyIdRow : RawRow :=
  [some "r1", some "", some "Acme", some "Nairobi",
   some "LAT: -1.28 LONG: 36.82", some "INV1", some "100", some "2"]

/-- C4 fails on the code: a row with an empty customer-identifier cell
    survives extraction.  Line 53 (`df[df["CUSTOMER ID"].notna()]`) is meant
    to drop missing ids, but it runs after the `astype(str)` of lines 51-52,
    so `notna()` is vacuously true on every (string) cell and nothing is
    dropped; the returned record below has `""` in the CUSTOMER ID column
    (position 1). -/
theorem C4_empty_customer_id_kept :
    read_pdf_to_df [[[c4Header, c4EmptyIdRow]]]
      = .ok (REQUIRED_COLUMNS,
          [(["r1", "", "Acme", "Nairobi", "LAT: -1.28 LONG: 36.82", "INV1", "100", "2"],
            -(32 / 25 : ℚ), (1841 / 50 : ℚ))]) := by
  have h0 : read_pdf_to_df [[[c4Header, c4EmptyIdRow]]]
      = .ok (REQUIRED_COLUMNS,
          [(["r1", "", "Acme", "Nairobi", "LAT: -1.28 LONG: 36.82", "INV1", "100", "2"],
            -(ratOfDigits ['1'] ['2', '8']), ratOfDigits ['3', '6'] ['8', '2'])]) := rfl
  have h1 : -(ratOfDigits ['1'] ['2', '8']) = -(32 / 25 : ℚ) := by
    unfold ratOfDigits
    rw [show digitsToNat ['1'] = 1 from rfl, show digitsToNat ['2', '8'] = 28 from rfl]
    norm_num
  have h2 : ratOfDigits ['3', '6'] ['8', '2'] = (1841 / 50 : ℚ) := by
    unfold ratOfDigits
    rw [show digitsToNat ['3', '6'] = 36 from rfl, show digitsToNat ['8', '2'] = 82 from rfl]
    norm_num
  rw [h0, h1, h2]

/-! ## Claim C6: the first-page header scan -/

/-- Reference recursion for the first-page scan (lines 33-41): the header
    comes from the first table that contains a qualifying row; tables
    scanned before it contribute no data rows; within the header's table the
    data rows are the rows from index 1 onward (blank rows dropped). -/
def firstScanSpec : List RawTable → Option (List String) × List RawRow
  | [] => (none, [])
  | t :: ts =>
    match t.find? headerCandidate with
    | some hrow =>
      (some (clean_column_names hrow),
        (t.drop 1).filter rowNonblank
          ++ ts.flatMap (fun t2 => t2.filter rowNonblank))
    | none => firstScanSpec ts

theorem foldl_processTable_some (i : ℕ) (h : List String) :
    ∀ (ts : List RawTable) (acc : List RawRow),
    ts.foldl (processTable i) (some h, acc)
      = (some h, acc ++ ts.flatMap (fun t => t.filter rowNonblank)) := by
  intro ts
  induction ts with
  | nil => intro acc; simp
  | cons t ts ih =>
    intro acc
    have hstep : processTable i (some h, acc) t = (some h, acc ++ t.filter rowNonblank) := by
      simp [processTable]
    rw [List.foldl_cons, hstep, ih]
    simp [List.append_assoc]

theorem foldl_processTable_pos (i : ℕ) (hi : i ≠ 0) :
    ∀ (ts : List RawTable) (st : Option (List String) × List RawRow),
    ts.foldl (processTable i) st
      = (st.1, st.2 ++ ts.flatMap (fun t => t.filter rowNonblank)) := by
  intro ts
  induction ts with
  | nil => intro st; simp
  | cons t ts ih =>
    intro st
    have hstep : processTable i st t = (st.1, st.2 ++ t.filter rowNonblank) := by
      simp [processTable, hi]
    rw [List.foldl_cons, hstep, ih]
    simp [List.append_assoc]

theorem scanPagesFrom_pos :
    ∀ (rest : List RawPage) (k : ℕ) (st : Option (List String) × List RawRow), k ≠ 0 →
    scanPagesFrom k st rest
      = (st.1, st.2 ++ rest.flatMap (fun pg => pg.flatMap (fun t => t.filter rowNonblank))) := by
  intro rest
  induction rest with
  | nil => intro k st hk; simp [scanPagesFrom]
  | cons pg rest ih =>
    intro k st hk
    show scanPagesFrom (k + 1) (pg.foldl (processTable k) st) rest = _
    rw [ih (k + 1) _ (by omega), foldl_processTable_pos k hk]
    simp [List.append_assoc]

theorem firstScan_eq :
    ∀ (ts : List RawTable) (acc : List RawRow),
    ts.foldl (processTable 0) (none, acc)
      = ((firstScanSpec ts).1, acc ++ (firstScanSpec ts).2) := by
  intro ts
  induction ts with
  | nil => intro acc; simp [firstScanSpec]
  | cons t ts ih =>
    intro acc
    cases hfind : t.find? headerCandidate with
    | some hrow =>
      have hstep : processTable 0 (none, acc) t
          = (some (clean_column_names hrow), acc ++ (t.drop 1).filter rowNonblank) := by
        simp [processTable, hfind]
      rw [List.foldl_cons, hstep, foldl_processTable_some 0 _ ts]
      simp [firstScanSpec, hfind, List.append_assoc]
    | none =>
      have hstep : processTable 0 (none, acc) t = (none, acc) := by
        simp [processTable, hfind]
      rw [List.foldl_cons, hstep, ih]
      simp [firstScanSpec, hfind]

/-- C6 (amended): on the first page the header is the first qualifying row
    (first cell non-empty, not the report banner) of the first table that
    has one; page-one tables scanned before the header contribute no data
    rows, but within the header's own table the data rows are exactly the
    rows from index 1 onward — **not** the rows after the header row — so a
    header at index ≥ 2 leaves the rows between index 1 and the header
    (and the header row itself) in the data; subsequent pages contribute
    every (non-blank) row. -/
theorem C6_first_page_scan (tbls : List RawTable) (rest : List RawPage) :
    scanPages (tbls :: rest)
      = ((firstScanSpec tbls).1,
         (firstScanSpec tbls).2
           ++ rest.flatMap (fun pg => pg.flatMap (fun t => t.filter rowNonblank))) := by
  show scanPagesFrom 1 (tbls.foldl (processTable 0) (none, [])) rest = _
  rw [firstScan_eq tbls []]
  rw [scanPagesFrom_pos rest 1 _ (by omega)]
  simp

def c6Banner : RawRow := [some "Sales Order Booking Report", some "q"]

/-- A row before the header whose first cell is `None` (so it is not a
    header candidate) but which is not blank. -/
def c6Stray : RawRow := [none, some "stray"]

def c6Header : RawRow :=
  [some "REP", some "CUSTOMER ID", some "CUSTOMER NAME", some "LOCATION",
   some "COORDINATES", some "INVOICE NO.", some "AMOUNT", some "TONNAGE"]

def c6Data : RawRow :=
  [some "r1", some "C9", some "Acme", some "Nairobi",
   some "LAT: -1.28 LONG: 36.82", some "INV1", some "100", some "2"]

/-- C6 counterexample: with the header at index 2 of the table, the scan
    keeps the stray pre-header row (index 1) **and the header row itself**
    as data (`data = tbl[1:]`), while the claim says exactly the rows after
    the header row become data. -/
theorem C6_counterexample :
    scanPages [[[c6Banner, c6Stray, c6Header, c6Data]]]
      = (some REQUIRED_COLUMNS, [c6Stray, c6Header, c6Data]) ∧
    (scanPages [[[c6Banner, c6Stray, c6Header, c6Data]]]).2 ≠ [c6Data] := by
  refine ⟨by decide, ?_⟩
  intro h
  rw [(by decide : scanPages [[[c6Banner, c6Stray, c6Header, c6Data]]]
    = (some REQUIRED_COLUMNS, [c6Stray, c6Header, c6Data]))] at h
  exact absurd h (by decide)

/-! ## JSON values of the remote protocol, and orders -/

inductive JVal where
  | int (n : ℤ)
  | str (s : String)
  | null
deriving DecidableEq

inductive JField where
  | atom (v : JVal)
  | arr (xs : List JVal)
deriving DecidableEq

/-- A decoded JSON response: an atom, or a flat object. -/
inductive JResp where
  | atom (v : JVal)
  | obj (entries : List (String × JField))
deriving DecidableEq

inductive PyErr where
  | keyError (k : String)
  | valueError (m : String)
deriving DecidableEq

/-- The order payload of lines 164-196.  `p`-prefixed fields are the nested
    `p` dict; the constant empty members (`oldOrderId`, `oldOrderFiles`,
    `ej`, `dp`, `cf`) carry no claim-relevant data and are omitted.  `id`
    holds whatever the create call returned (line 220 stores the raw
    response), and `sequence` is the key added by `optimize_route`
    (line 119), absent until then. -/
structure Order where
  itemId : ℤ
  id : JResp
  n : String
  pn : String
  pa : String
  pw : ℤ
  pc : String
  pcid : String
  puic : String
  pcm : String
  rp : String
  tf : ℤ
  tt : ℤ
  trt : ℤ
  r : ℤ
  y : ℚ
  x : ℚ
  tz : ℤ
  callMode : String
  routing_mode : String
  path_type : String
  sequence : Option ℕ
deriving DecidableEq

/-! ## `convert_to_orders` (app2.py lines 157-198) -/

/-- A pandas row (or a plain dict) as an association list. -/
abbrev SeriesRow := List (String × String)

/-- Python `r.get(k)`: `None` when the key is missing. -/
def seriesGet (r : SeriesRow) (k : String) : Option String :=
  (r.find? (fun p => p.1 == k)).map (fun p => p.2)

/-- Python `r[k]`: raises `KeyError` when the key is missing. -/
def seriesIdx (r : SeriesRow) (k : String) : Except PyErr String :=
  match seriesGet r k with
  | some v => .ok v
  | none => .error (.keyError k)

/-- Python `int(...)` on a rational: truncation toward zero (t-division of
    the reduced numerator by the denominator). -/
def pyInt (q : ℚ) : ℤ := q.num.tdiv q.den

/-- `pyInt` is floor on non-negatives and ceiling on negatives — i.e.
    truncation toward zero, the semantics of Python `int()`. -/
theorem pyInt_trunc (q : ℚ) : pyInt q = if 0 ≤ q then ⌊q⌋ else ⌈q⌉ := by
  unfold pyInt
  by_cases h : 0 ≤ q
  · rw [if_pos h, Rat.floor_def]
    exact Int.tdiv_eq_ediv (Rat.num_nonneg.mpr h) (by positivity)
  · rw [if_neg h]
    have hceil : (⌈q⌉ : ℤ) = -⌊-q⌋ := by
      rw [Int.floor_neg]; ring
    rw [hceil]
    have hneg : (-q).num.tdiv (-q).den = ⌊-q⌋ := by
      rw [Rat.floor_def]
      exact Int.tdiv_eq_ediv (Rat.num_nonneg.mpr (by linarith [lt_of_not_ge h]))
        (by positivity)
    have hden : (-q).den = q.den := rfl
    have hnum : (-q).num = -q.num := rfl
    rw [hden, hnum] at hneg
    rw [← hneg, Int.neg_tdiv, neg_neg]

/-- Rendering of a float in an f-string.  The embedding renders the rational
    abstractly (`toString`); no claim inspects the composed address text. -/
def ratStr (q : ℚ) : String := toString q

/-- Line 162: `w = int(float(r.get("TONNAGE",0)) * 1000) if r.get("TONNAGE")
    else 0`.  A missing column or empty cell is falsy and yields 0; a
    non-empty cell goes through `float(...)`, which raises `ValueError` on a
    non-numeric string, and `int(...)` truncates toward zero. -/
def orderWeight (t : Option String) : Except PyErr ℤ :=
  match t with
  | none => .ok 0
  | some s =>
    if pyIsEmpty s then .ok 0
    else
      match pyFloat s with
      | some q => .ok (pyInt (q * 1000))
      | none => .error (.valueError ("could not convert string to float: " ++ s))

/-- Lines 159-197, one row of the loop: evaluation follows the source order
    (coordinates, weight, asset lookup, then the dict literal fields), so
    the first raising access aborts with that error.  Note line 176 reads
    `r["INVOICE NO"]` — without the trailing dot of the extracted column
    name `"INVOICE NO."`. -/
def convertRow (county_asset : SeriesRow) (tf tt : ℤ) (r : SeriesRow) :
    Except PyErr (Option Order) := do
  let coordS ← seriesIdx r "COORDINATES"
  match extract_coordinates coordS with
  | (none, _) => pure none
  | (some lat, lonOpt) => do
    let lon := lonOpt.getD 0
    let w ← orderWeight (seriesGet r "TONNAGE")
    let county ← seriesIdx r "Correct County"
    let asset := (seriesGet county_asset county).getD ""
    let rp := if pyIsEmpty asset then "Unassigned" else asset
    let n1 ← seriesIdx r "CUSTOMER NAME"
    let n2 ← seriesIdx r "CUSTOMER NAME"
    let county2 ← seriesIdx r "Correct County"
    let a := county2 ++ " (LAT:" ++ ratStr lat ++ ", LONG:" ++ ratStr lon ++ ")"
    let c ← seriesIdx r "AMOUNT"
    let cid ← seriesIdx r "CUSTOMER ID"
    let uic ← seriesIdx r "INVOICE NO"
    pure (some {
      itemId := 25601229, id := .atom (.int 0), n := n1,
      pn := n2, pa := a, pw := w, pc := c, pcid := cid, puic := uic,
      pcm := "Handle with care", rp := rp, tf := tf, tt := tt, trt := 600,
      r := 20, y := lat, x := lon, tz := 3, callMode := "create",
      routing_mode := "optimal", path_type := "optimal", sequence := none })

/-- Lines 157-198: the row loop (`if lat is None: continue` skips a row;
    any raising row access aborts the whole call, as in Python). -/
def convert_to_orders : List SeriesRow → ℤ → ℤ → SeriesRow → Except PyErr (List Order)
  | [], _, _, _ => .ok []
  | r :: rest, tf, tt, ca => do
    let o? ← convertRow ca tf tt r
    let os ← convert_to_orders rest tf tt ca
    pure (match o? with | some o => o :: os | none => os)

/-! ## Claim C1: `convert_to_orders` and the invoice-number column -/

/-- A fully populated record as produced by extraction and region
    resolution: its invoice column is named `INVOICE NO.` (with the dot), as
    fixed by `REQUIRED_COLUMNS` and the line 50 renaming. -/
def c1Row : SeriesRow :=
  [("REP", "r1"), ("CUSTOMER ID", "C1"), ("CUSTOMER NAME", "Acme"),
   ("LOCATION", "Nairobi"), ("COORDINATES", "LAT: -1.28 LONG: 36.82"),
   ("INVOICE NO.", "INV1"), ("AMOUNT", "100"), ("TONNAGE", "2.5"),
   ("LAT", "-1.28"), ("LONG", "36.82"), ("Cluster", "0"),
   ("Correct County", "Nairobi")]

/-- C1 fails on the code: for every record with parseable coordinates the
    order builder raises `KeyError("INVOICE NO")` at line 176, because the
    record's column is named `"INVOICE NO."` (the `REQUIRED_COLUMNS`
    spelling) while the code indexes `r["INVOICE NO"]`.  No order payload is
    ever produced. -/
theorem C1_invoice_keyerror :
    convert_to_orders [c1Row] 100 200 [("Nairobi", "TruckA")]
      = .error (.keyError "INVOICE NO") := by decide

/-! ## Claim C5: the weight computation -/

/-- C5 counterexample: tonnage `"2.0567"` gives weight `2056` (truncation),
    while rounding `2.0567 * 1000 = 2056.7` to the nearest integer gives
    `2057`; and a present non-numeric tonnage (`"abc"`) raises `ValueError`
    instead of yielding 0. -/
theorem C5_counterexample :
    orderWeight (some "2.0567") = .ok 2056 ∧
    round ((20567 : ℚ) / 10000 * 1000) = 2057 ∧
    (∃ m, orderWeight (some "abc") = .error (.valueError m)) := by
  refine ⟨?_, ?_, ⟨_, rfl⟩⟩
  · have h0 : orderWeight (some "2.0567")
        = .ok (pyInt (ratOfDigits ['2'] ['0', '5', '6', '7'] * 1000)) := rfl
    have h1 : ratOfDigits ['2'] ['0', '5', '6', '7'] * 1000 = (20567 : ℚ) / 10 := by
      unfold ratOfDigits
      rw [show digitsToNat ['2'] = 2 from rfl,
        show digitsToNat ['0', '5', '6', '7'] = 567 from rfl]
      norm_num
    rw [h0, h1, pyInt_trunc, if_pos (by norm_num)]
    have : ⌊(20567 : ℚ) / 10⌋ = 2056 := by
      rw [Int.floor_eq_iff] ; norm_num
    rw [this]
  · rw [round_eq]
    have : ⌊(20567 : ℚ) / 10000 * 1000 + 1 / 2⌋ = 2057 := by
      rw [Int.floor_eq_iff] ; norm_num
    rw [this]

/-- C5 (amended): the weight is 0 when the tonnage cell is absent or empty;
    when the cell is non-empty and parses as a float `q`, the weight is
    `q * 1000` **truncated toward zero** (not rounded to nearest); and when
    the cell is non-empty but non-numeric, `float(...)` raises `ValueError`
    (the call does not return 0). -/
theorem C5_order_weight :
    (orderWeight none = .ok 0) ∧
    (∀ s : String, pyIsEmpty s = true → orderWeight (some s) = .ok 0) ∧
    (∀ (s : String) (q : ℚ), pyIsEmpty s = false → pyFloat s = some q →
      orderWeight (some s) = .ok (if 0 ≤ q * 1000 then ⌊q * 1000⌋ else ⌈q * 1000⌉)) ∧
    (∀ s : String, pyIsEmpty s = false → pyFloat s = none →
      orderWeight (some s)
        = .error (.valueError ("could not convert string to float: " ++ s))) := by
  refine ⟨rfl, ?_, ?_, ?_⟩
  · intro s hs
    simp [orderWeight, hs]
  · intro s q hs hq
    simp [orderWeight, hs, hq, pyInt_trunc]
  · intro s hs hq
    simp [orderWeight, hs, hq]

/-- Witness for C5 at tonnage `"2.5"`: weight 2500, matching the spec's own
    example. -/
theorem C5_order_weight_witness : orderWeight (some "2.5") = .ok 2500 := by
  have h := C5_order_weight.2.2.1 "2.5" (ratOfDigits ['2'] ['5']) rfl rfl
  have h1 : ratOfDigits ['2'] ['5'] * 1000 = (2500 : ℚ) := by
    unfold ratOfDigits
    rw [show digitsToNat ['2'] = 2 from rfl, show digitsToNat ['5'] = 5 from rfl]
    norm_num
  rw [h, h1, if_pos (by norm_num)]
  norm_num

/-! ## `send_orders` creation loop (app2.py lines 207-224) -/

/-- Outcome of one remote call as seen by the caller: the call raised (a
    network error from `requests.post`, or `resp.json()` failing to decode),
    or it produced a decoded JSON value. -/
inductive CallResult where
  | exn (msg : String)
  | val (v : JResp)
deriving DecidableEq

/-- Line 217: `isinstance(result, dict) and 'error' in result`. -/
def errField : JResp → Option JField
  | .atom _ => none
  | .obj es => (es.find? (fun p => p.1 == "error")).map (fun p => p.2)

/-- Rendering of the error payload into the report string. -/
def errText : JField → String
  | .atom (.int n) => toString n
  | .atom (.str s) => s
  | .atom .null => "None"
  | .arr _ => "[...]"

/-- Lines 213-224: the order-creation loop.  `resp k` is the decoded
    outcome of the `order/update` call for the `k`-th order.  The loop body
    has no `try`: a raising call propagates and aborts the whole batch
    (modelled by `Except.error`); only an explicit `error` member in the
    decoded response is handled per order.  `time.sleep(1)` is dropped. -/
def createOrdersLoop (resp : ℕ → CallResult) :
    List Order → ℕ → Except String (List Order × List String)
  | [], _ => .ok ([], [])
  | o :: rest, k =>
    match resp k with
    | .exn m => .error m
    | .val v =>
      match errField v with
      | some e =>
        match createOrdersLoop resp rest (k + 1) with
        | .ok (cr, errs) =>
          .ok (cr, ("Failed to create order for " ++ o.n ++ ": " ++ errText e) :: errs)
        | .error m => .error m
      | none =>
        match createOrdersLoop resp rest (k + 1) with
        | .ok (cr, errs) => .ok ({ o with id := v } :: cr, errs)
        | .error m => .error m

/-- The created set when no call raises: orders whose responses carry an
    `error` member are skipped, the others get the returned id. -/
def createdSpec (resp : ℕ → CallResult) : List Order → ℕ → List Order
  | [], _ => []
  | o :: rest, k =>
    match resp k with
    | .exn _ => createdSpec resp rest (k + 1)
    | .val v =>
      match errField v with
      | some _ => createdSpec resp rest (k + 1)
      | none => { o with id := v } :: createdSpec resp rest (k + 1)

/-- The per-order failure reports when no call raises. -/
def reportsSpec (resp : ℕ → CallResult) : List Order → ℕ → List String
  | [], _ => []
  | o :: rest, k =>
    match resp k with
    | .exn _ => reportsSpec resp rest (k + 1)
    | .val v =>
      match errField v with
      | some e =>
        ("Failed to create order for " ++ o.n ++ ": " ++ errText e)
          :: reportsSpec resp rest (k + 1)
      | none => reportsSpec resp rest (k + 1)

/-! ## Claim C3: per-order failure isolation in CreateOrders -/

/-- C3 (amended): when the decoded response for an order is an explicit
    error object, that order's failure is reported, the order is excluded
    from the created set, and submission of the remaining orders continues;
    but a **raising** call (network error or non-decodable response) is not
    handled: it propagates out of `send_orders` at the first such order and
    aborts the batch — the remaining orders are never submitted. -/
theorem C3_create_orders :
    (∀ (resp : ℕ → CallResult) (orders : List Order) (k : ℕ),
      (∀ j, j < orders.length → ∀ m, resp (k + j) ≠ .exn m) →
      createOrdersLoop resp orders k
        = .ok (createdSpec resp orders k, reportsSpec resp orders k)) ∧
    (∀ (resp : ℕ → CallResult) (orders : List Order) (k j : ℕ) (m : String),
      j < orders.length → resp (k + j) = .exn m →
      (∀ i, i < j → ∀ m', resp (k + i) ≠ .exn m') →
      createOrdersLoop resp orders k = .error m) := by
  constructor
  · intro resp orders
    induction orders with
    | nil => intro k h; rfl
    | cons o rest ih =>
      intro k h
      cases hcase : resp k with
      | exn m => exact absurd (by simpa using hcase) (by simpa using h 0 (by simp) m)
      | val v =>
        have ih' := ih (k + 1) (fun j hj m => by
          have := h (j + 1) (by simp; omega) m
          simpa [Nat.add_assoc, Nat.add_comm 1 j] using this)
        cases herr : errField v with
        | some e =>
          simp [createOrdersLoop, createdSpec, reportsSpec, hcase, herr, ih']
        | none =>
          simp [createOrdersLoop, createdSpec, reportsSpec, hcase, herr, ih']
  · intro resp orders
    induction orders with
    | nil => intro k j m hj; exact absurd hj (by simp)
    | cons o rest ih =>
      intro k j m hj hexn hno
      cases j with
      | zero =>
        simp only [Nat.add_zero] at hexn
        simp [createOrdersLoop, hexn]
      | succ j' =>
        have hnotexn : ∀ m', resp k ≠ .exn m' := fun m' => by
          simpa using hno 0 (by omega) m'
        cases hcase : resp k with
        | exn m' => exact absurd hcase (hnotexn m')
        | val v =>
          have hexn' : resp ((k + 1) + j') = .exn m := by
            have : k + (j' + 1) = (k + 1) + j' := by omega
            rw [← this]; exact hexn
          have hno' : ∀ i, i < j' → ∀ m', resp ((k + 1) + i) ≠ .exn m' := by
            intro i hi m'
            have : (k + 1) + i = k + (i + 1) := by omega
            rw [this]; exact hno (i + 1) (by omega) m'
          have ih' := ih (k + 1) j' m (by simpa using hj) hexn' hno'
          cases herr : errField v with
          | some e => simp [createOrdersLoop, hcase, herr, ih']
          | none => simp [createOrdersLoop, hcase, herr, ih']

/-- A small order payload for concrete scenarios (fields as built by
    `convert_to_orders`). -/
def mkOrder (name rp : String) (idv : ℤ) : Order :=
  { itemId := 25601229, id := .atom (.int idv), n := name, pn := name,
    pa := "addr", pw := 0, pc := "0", pcid := "c", puic := "i",
    pcm := "Handle with care", rp := rp, tf := 0, tt := 1, trt := 600,
    r := 20, y := 0, x := 0, tz := 3, callMode := "create",
    routing_mode := "optimal", path_type := "optimal", sequence := none }

def c3Resp : ℕ → CallResult :=
  fun k => if k == 0 then .exn "ConnectionError" else .val (.atom (.int 5))

/-- Witness for C3: with a response oracle that never raises and returns id
    7, a single order is created with that id and no failure is reported. -/
theorem C3_create_orders_witness :
    createOrdersLoop (fun _ => .val (.atom (.int 7))) [mkOrder "W" "R" 0] 0
      = .ok ([{ mkOrder "W" "R" 0 with id := .atom (.int 7) }], []) := by
  have h := C3_create_orders.1 (fun _ => .val (.atom (.int 7)))
    [mkOrder "W" "R" 0] 0 (fun j hj m hm => by simp at hm)
  rw [h]
  rfl

/-! ## `optimize_route` (app2.py lines 78-129) -/

/-- Lines 114: `isinstance(result, dict) and 'orders' in result`, and the
    subsequent `enumerate(result['orders'])`.  A dict whose `orders` member
    is not a list makes `enumerate` raise inside the `try`, landing in the
    same warning branch as a missing member, so both are mapped to `none`. -/
def getOrders : JResp → Option (List JVal)
  | .atom _ => none
  | .obj es =>
    match (es.find? (fun p => p.1 == "orders")).map (fun p => p.2) with
    | some (JField.arr xs) => some xs
    | some (JField.atom _) => none
    | none => none

/-- Python `order['id'] == order_id`: the stored create-response compared
    with an id from the optimization response (a dict never equals an
    atom). -/
def beqIdVal : JResp → JVal → Bool
  | .atom w, v => w == v
  | .obj _, _ => false

/-- Lines 117-120: scan `resource_orders` and set `sequence` on the first
    order whose id matches, then `break`. -/
def setSeqFirst (oid : JVal) (s : ℕ) : List Order → List Order
  | [] => []
  | o :: rest =>
    if beqIdVal o.id oid then { o with sequence := some s } :: rest
    else o :: setSeqFirst oid s rest

/-- Lines 116-120: `for idx, order_id in enumerate(result['orders'])`,
    assigning 1-based sequence numbers. -/
def applySeqFrom : ℕ → List JVal → List Order → List Order
  | _, [], ros => ros
  | k, oid :: rest, ros => applySeqFrom (k + 1) rest (setSeqFirst oid (k + 1) ros)

def applySeq (ids : List JVal) (ros : List Order) : List Order :=
  applySeqFrom 0 ids ros

def optWarnErr (resource m : String) : String :=
  "Route optimization error for resource " ++ resource ++ ": " ++ m

def optWarnFail (resource : String) : String :=
  "Route optimization failed for resource " ++ resource ++ ". Using original order."

/-- Lines 92-127, the body of the per-resource loop: fewer than two orders
    skip optimization; an exception (the whole request/decode/update block
    is inside `try`) or a response without a usable `orders` list retains
    the group's orders and emits a warning; a usable `orders` list assigns
    sequence numbers.  `resp` is the oracle for the one `order/optimize`
    call a group makes. -/
def processGroup (resp : String → CallResult) (resource : String) (ros : List Order) :
    List Order × Option String :=
  if ros.length < 2 then (ros, none)
  else
    match resp resource with
    | .exn m => (ros, some (optWarnErr resource m))
    | .val v =>
      match getOrders v with
      | some ids => (applySeq ids ros, none)
      | none => (ros, some (optWarnFail resource))

/-- Lines 83-88: build `orders_by_resource` (a dict preserving first-seen
    key order, appending each order to its resource's list). -/
def addToGroups : List (String × List Order) → Order → List (String × List Order)
  | [], o => [(o.rp, [o])]
  | g :: gs, o =>
    if g.1 == o.rp then (g.1, g.2 ++ [o]) :: gs
    else g :: addToGroups gs o

def groupByResource (orders : List Order) : List (String × List Order) :=
  orders.foldl addToGroups []

def optStep (resp : String → CallResult) (acc : List Order × List String)
    (g : String × List Order) : List Order × List String :=
  (acc.1 ++ (processGroup resp g.1 g.2).1,
   acc.2 ++ (match (processGroup resp g.1 g.2).2 with
             | some m => [m]
             | none => []))

/-- Lines 78-129: group by resource, process each group in order,
    accumulating the optimized orders and the warnings. -/
def optimize_route (resp : String → CallResult) (orders : List Order) :
    List Order × List String :=
  (groupByResource orders).foldl (optStep resp) ([], [])

/-- Lines 226-235 of `send_orders`: create all orders, then optimize the
    created ones (route path updates, lines 131-155, mutate nothing the
    claims observe and are omitted).  Returns the optimized orders, the
    per-order creation failure reports, and the optimization warnings. -/
def send_orders (respCreate : ℕ → CallResult) (respOpt : String → CallResult)
    (orders : List Order) : Except String (List Order × List String × List String) := do
  let (created, errs) ← createOrdersLoop respCreate orders 0
  if created.isEmpty then
    pure (created, errs, [])
  else
    pure ((optimize_route respOpt created).1, errs, (optimize_route respOpt created).2)

/-- C3 counterexample: when the first createOrder call raises (network
    error / non-decodable body), the loop aborts with that exception — the
    failure is not converted into a per-order report and the second order is
    never submitted, contradicting the claim that the batch continues for
    every per-order outcome. -/
theorem C3_counterexample :
    createOrdersLoop c3Resp [mkOrder "A" "R1" 0, mkOrder "B" "R1" 0] 0
      = .error "ConnectionError" ∧
    send_orders c3Resp (fun _ => .exn "unreached") [mkOrder "A" "R1" 0, mkOrder "B" "R1" 0]
      = .error "ConnectionError" ∧
    ∀ cr errs, createOrdersLoop c3Resp [mkOrder "A" "R1" 0, mkOrder "B" "R1" 0] 0
      ≠ .ok (cr, errs) := by
  refine ⟨rfl, rfl, ?_⟩
  intro cr errs h
  have h1 : createOrdersLoop c3Resp [mkOrder "A" "R1" 0, mkOrder "B" "R1" 0] 0
      = .error "ConnectionError" := rfl
  rw [h1] at h
  exact Except.noConfusion h

/-! ## Lemmas about sequence assignment and grouping -/

theorem beqIdVal_atom {x : JResp} {v : JVal} (h : beqIdVal x v = true) :
    x = .atom v := by
  cases x with
  | atom w => simp [beqIdVal] at h; rw [h]
  | obj es => simp [beqIdVal] at h

theorem setSeqFirst_length (oid : JVal) (s : ℕ) :
    ∀ ros : List Order, (setSeqFirst oid s ros).length = ros.length := by
  intro ros
  induction ros with
  | nil => rfl
  | cons o rest ih =>
    by_cases h : beqIdVal o.id oid = true
    · simp [setSeqFirst, h]
    · simp [setSeqFirst, h, ih]

theorem setSeqFirst_map_id (oid : JVal) (s : ℕ) :
    ∀ ros : List Order,
    (setSeqFirst oid s ros).map (fun o => o.id) = ros.map (fun o => o.id) := by
  intro ros
  induction ros with
  | nil => rfl
  | cons o rest ih =>
    by_cases h : beqIdVal o.id oid = true
    · simp [setSeqFirst, h]
    · simp [setSeqFirst, h, ih]

/-- Forget the `sequence` field. -/
def eraseSeq (o : Order) : Order := { o with sequence := none }

theorem setSeqFirst_map_eraseSeq (oid : JVal) (s : ℕ) :
    ∀ ros : List Order,
    (setSeqFirst oid s ros).map eraseSeq = ros.map eraseSeq := by
  intro ros
  induction ros with
  | nil => rfl
  | cons o rest ih =>
    by_cases h : beqIdVal o.id oid = true
    · simp only [setSeqFirst, h, if_true, List.map_cons]
      rfl
    · simp [setSeqFirst, h, ih]

theorem setSeqFirst_get {oid : JVal} {s : ℕ} :
    ∀ (ros : List Order), (ros.map (fun o => o.id)).Nodup →
    ∀ (j : ℕ) (hj : j < ros.length) (hj2 : j < (setSeqFirst oid s ros).length),
    (setSeqFirst oid s ros).get ⟨j, hj2⟩
      = if beqIdVal (ros.get ⟨j, hj⟩).id oid = true then
          { ros.get ⟨j, hj⟩ with sequence := some s }
        else ros.get ⟨j, hj⟩ := by
  intro ros
  induction ros with
  | nil => intro _ j hj; exact absurd hj (by simp)
  | cons o rest ih =>
    intro hnd j hj hj2
    have hnd2 : (∀ x ∈ rest, ¬x.id = o.id) ∧ (rest.map (fun o => o.id)).Nodup := by
      simpa using hnd
    cases hhead : beqIdVal o.id oid with
    | true =>
      cases j with
      | zero => simp [setSeqFirst, hhead]
      | succ j' =>
        have hj'r : j' < rest.length := by simpa using hj
        have hfalse : beqIdVal (rest.get ⟨j', hj'r⟩).id oid = false := by
          cases hx : beqIdVal (rest.get ⟨j', hj'r⟩).id oid
          · rfl
          · exfalso
            have h1 := beqIdVal_atom hhead
            have h2 := beqIdVal_atom hx
            exact hnd2.1 (rest.get ⟨j', hj'r⟩) (rest.get_mem _ _) (by rw [h2, ← h1])
        simp only [List.get_eq_getElem] at hfalse
        simp [setSeqFirst, hhead, hfalse]
    | false =>
      cases j with
      | zero => simp [setSeqFirst, hhead]
      | succ j' =>
        have hj'r : j' < rest.length := by simpa using hj
        have hj2' : j' < (setSeqFirst oid s rest).length := by
          rw [setSeqFirst_length]; exact hj'r
        have hrec := ih hnd2.2 j' hj'r hj2'
        simp only [List.get_eq_getElem] at hrec
        simp [setSeqFirst, hhead, hrec]

theorem applySeqFrom_length :
    ∀ (ids : List JVal) (k : ℕ) (ros : List Order),
    (applySeqFrom k ids ros).length = ros.length := by
  intro ids
  induction ids with
  | nil => intro k ros; rfl
  | cons oid rest ih =>
    intro k ros
    show (applySeqFrom (k + 1) rest (setSeqFirst oid (k + 1) ros)).length = _
    rw [ih, setSeqFirst_length]

theorem applySeqFrom_map_eraseSeq :
    ∀ (ids : List JVal) (k : ℕ) (ros : List Order),
    (applySeqFrom k ids ros).map eraseSeq = ros.map eraseSeq := by
  intro ids
  induction ids with
  | nil => intro k ros; rfl
  | cons oid rest ih =>
    intro k ros
    show (applySeqFrom (k + 1) rest (setSeqFirst oid (k + 1) ros)).map eraseSeq = _
    rw [ih, setSeqFirst_map_eraseSeq]

theorem applySeqFrom_get :
    ∀ (ids : List JVal) (k : ℕ) (ros : List Order),
    (ros.map (fun o => o.id)).Nodup → ids.Nodup →
    ∀ (j : ℕ) (hj : j < ros.length) (hj2 : j < (applySeqFrom k ids ros).length),
    (applySeqFrom k ids ros).get ⟨j, hj2⟩
      = match ids.findIdx? (fun oid => beqIdVal (ros.get ⟨j, hj⟩).id oid) k with
        | some i => { ros.get ⟨j, hj⟩ with sequence := some (i + 1) }
        | none => ros.get ⟨j, hj⟩ := by
  intro ids
  induction ids with
  | nil => intro k ros _ _ j hj hj2; rfl
  | cons oid rest ih =>
    intro k ros hros hids j hj hj2
    have hids2 : oid ∉ rest ∧ rest.Nodup := List.nodup_cons.mp hids
    have hjset : j < (setSeqFirst oid (k + 1) ros).length := by
      rw [setSeqFirst_length]; exact hj
    have hset := setSeqFirst_get ros hros j hj hjset
    have hrosid : ((setSeqFirst oid (k + 1) ros).map (fun o => o.id)).Nodup := by
      rw [setSeqFirst_map_id]; exact hros
    have hrec := ih (k + 1) (setSeqFirst oid (k + 1) ros) hrosid hids2.2 j hjset
      (by rw [applySeqFrom_length]; exact hjset)
    show (applySeqFrom (k + 1) rest (setSeqFirst oid (k + 1) ros)).get ⟨j, _⟩ = _
    rw [hrec]
    cases hb : beqIdVal (ros.get ⟨j, hj⟩).id oid with
    | true =>
      rw [hset]
      simp only [hb, if_true]
      have hidatom := beqIdVal_atom hb
      have hfind : rest.findIdx?
          (fun oid' => beqIdVal (ros.get ⟨j, hj⟩).id oid') = none := by
        rw [List.findIdx?_eq_none_iff]
        intro x hx
        cases hz : beqIdVal (ros.get ⟨j, hj⟩).id x
        · rfl
        · exfalso
          have hz2 := beqIdVal_atom hz
          rw [hidatom] at hz2
          exact hids2.1 ((JResp.atom.inj hz2) ▸ hx)
      simp only [List.get_eq_getElem] at hfind hb
      simp [hfind, List.findIdx?_cons, hb]
    | false =>
      simp only [hb, Bool.false_eq_true, if_false] at hset
      rw [hset, List.findIdx?_cons]
      rw [if_neg (by simp only [List.get_eq_getElem] at hb; simp [hb])]

theorem foldl_optStep_fst (resp : String → CallResult) :
    ∀ (gs : List (String × List Order)) (acc : List Order × List String),
    (gs.foldl (optStep resp) acc).1
      = acc.1 ++ gs.flatMap (fun g => (processGroup resp g.1 g.2).1) := by
  intro gs
  induction gs with
  | nil => intro acc; simp
  | cons g gs ih =>
    intro acc
    rw [List.foldl_cons, ih]
    simp [optStep, List.append_assoc]

/-- In a duplicate-free id list, `findIdx?` starting at `s` finds the
    element at position `idx` exactly at absolute index `s + idx`. -/
theorem findIdx?_get_of_nodup :
    ∀ (ids : List JVal), ids.Nodup →
    ∀ (idx : ℕ) (hidx : idx < ids.length) (s : ℕ),
    ids.findIdx? (fun x => ids.get ⟨idx, hidx⟩ == x) s = some (s + idx) := by
  intro ids
  induction ids with
  | nil => intro _ idx hidx; exact absurd hidx (by simp)
  | cons v rest ih =>
    intro hnd idx hidx s
    have hnd2 : v ∉ rest ∧ rest.Nodup := List.nodup_cons.mp hnd
    cases idx with
    | zero =>
      rw [List.findIdx?_cons, if_pos (by simp)]
      rfl
    | succ idx' =>
      have hidx' : idx' < rest.length := by simpa using hidx
      have hget : ((v :: rest).get ⟨idx' + 1, hidx⟩) = rest.get ⟨idx', hidx'⟩ := rfl
      rw [List.findIdx?_cons]
      rw [if_neg (by
        simp only [hget]
        intro hcontra
        simp only [beq_iff_eq, decide_eq_true_eq] at hcontra
        exact hnd2.1 (hcontra ▸ rest.get_mem _ _))]
      rw [hget, ih hnd2.2 idx' hidx' (s + 1)]
      congr 1
      omega

/-! ## Claim C8: per-group behaviour of route optimization -/

/-- C8: `optimize_route` concatenates the per-group results in group order
    (first conjunct); a group with fewer than two orders is passed through
    unchanged with no warning; on a raising call, or a response without a
    usable `orders` list, the group is retained unchanged and a warning is
    reported (the whole request/decode/update block sits in `try`, so the
    function never raises — the embedding is total); on success, the order
    matching the id at position `idx` of the returned ordering (ids and
    order-ids duplicate-free) ends with sequence number `idx + 1`. -/
theorem C8_optimize_route :
    (∀ (resp : String → CallResult) (orders : List Order),
      (optimize_route resp orders).1
        = (groupByResource orders).flatMap (fun g => (processGroup resp g.1 g.2).1)) ∧
    (∀ (resp : String → CallResult) (resource : String) (ros : List Order),
      ros.length < 2 → processGroup resp resource ros = (ros, none)) ∧
    (∀ (resp : String → CallResult) (resource : String) (ros : List Order) (m : String),
      2 ≤ ros.length → resp resource = .exn m →
      processGroup resp resource ros = (ros, some (optWarnErr resource m))) ∧
    (∀ (resp : String → CallResult) (resource : String) (ros : List Order) (v : JResp),
      2 ≤ ros.length → resp resource = .val v → getOrders v = none →
      processGroup resp resource ros = (ros, some (optWarnFail resource))) ∧
    (∀ (resp : String → CallResult) (resource : String) (ros : List Order)
       (v : JResp) (ids : List JVal),
      2 ≤ ros.length → resp resource = .val v → getOrders v = some ids →
      ids.Nodup → (ros.map (fun o => o.id)).Nodup →
      ∀ (idx : ℕ) (hidx : idx < ids.length) (j : ℕ) (hj : j < ros.length),
        (ros.get ⟨j, hj⟩).id = .atom (ids.get ⟨idx, hidx⟩) →
        ∀ hj2 : j < (processGroup resp resource ros).1.length,
          ((processGroup resp resource ros).1.get ⟨j, hj2⟩).sequence
            = some (idx + 1)) := by
  refine ⟨?_, ?_, ?_, ?_, ?_⟩
  · intro resp orders
    exact foldl_optStep_fst resp (groupByResource orders) ([], [])
  · intro resp resource ros h
    simp [processGroup, h]
  · intro resp resource ros m hlen hresp
    simp [processGroup, Nat.not_lt.mpr hlen, hresp]
  · intro resp resource ros v hlen hresp hords
    simp [processGroup, Nat.not_lt.mpr hlen, hresp, hords]
  · intro resp resource ros v ids hlen hresp hords hids hros idx hidx j hj hid hj2
    have hpg : processGroup resp resource ros = (applySeq ids ros, none) := by
      simp [processGroup, Nat.not_lt.mpr hlen, hresp, hords]
    have hj2' : j < (applySeq ids ros).length := by
      unfold applySeq
      rw [applySeqFrom_length]; exact hj
    have hkey := applySeqFrom_get ids 0 ros hros hids j hj hj2'
    have hfound : ids.findIdx? (fun oid => beqIdVal (ros.get ⟨j, hj⟩).id oid) 0
        = some idx := by
      have hpred : (fun oid => beqIdVal (ros.get ⟨j, hj⟩).id oid)
          = (fun x => ids.get ⟨idx, hidx⟩ == x) := by
        funext x
        rw [hid]
        rfl
      rw [hpred, findIdx?_get_of_nodup ids hids idx hidx 0]
      simp
    rw [hfound] at hkey
    have hseq : ((applySeq ids ros).get ⟨j, hj2'⟩).sequence = some (idx + 1) := by
      unfold applySeq
      rw [hkey]
    revert hj2
    rw [hpg]
    intro hj2
    exact hseq

def c8Resp : String → CallResult :=
  fun _ => .val (.obj [("orders", .arr [.int 7, .int 5])])

/-- Witness for C8: two orders with ids 5 and 7; the optimizer returns the
    ordering `[7, 5]`, so the order with id 5 (position 0 of the group,
    position 1 of the returned ordering) receives sequence number 2. -/
theorem C8_optimize_route_witness :
    ∃ h : 0 < (processGroup c8Resp "R" [mkOrder "A" "R" 5, mkOrder "B" "R" 7]).1.length,
      ((processGroup c8Resp "R" [mkOrder "A" "R" 5, mkOrder "B" "R" 7]).1.get
        ⟨0, h⟩).sequence = some 2 := by
  refine ⟨by decide, ?_⟩
  exact C8_optimize_route.2.2.2.2 c8Resp "R" [mkOrder "A" "R" 5, mkOrder "B" "R" 7]
    (.obj [("orders", .arr [.int 7, .int 5])]) [.int 7, .int 5]
    (by decide) rfl rfl (by decide) (by decide)
    1 (by decide) 0 (by decide) (by decide) _

/-! ## Claim C10: `optimize_route` preserves the orders as a multiset -/

theorem processGroup_fst_map_eraseSeq (resp : String → CallResult)
    (res : String) (ros : List Order) :
    ((processGroup resp res ros).1).map eraseSeq = ros.map eraseSeq := by
  by_cases h : ros.length < 2
  · simp [processGroup, h]
  · cases hr : resp res with
    | exn m => simp [processGroup, h, hr]
    | val v =>
      cases ho : getOrders v with
      | some ids =>
        simp only [processGroup, h, if_false, hr, ho]
        exact applySeqFrom_map_eraseSeq ids 0 ros
      | none => simp [processGroup, h, hr, ho]

theorem addToGroups_flatMap_perm (gs : List (String × List Order)) (o : Order) :
    ((addToGroups gs o).flatMap (fun g => g.2)).Perm
      (gs.flatMap (fun g => g.2) ++ [o]) := by
  induction gs with
  | nil => simp [addToGroups]
  | cons g gs ih =>
    cases h : (g.1 == o.rp) with
    | true =>
      simp only [addToGroups, h, if_true, List.flatMap_cons]
      have p1 : (g.2 ++ [o]) ++ gs.flatMap (fun g => g.2)
          = g.2 ++ ([o] ++ gs.flatMap (fun g => g.2)) := by simp
      have p3 : (g.2 ++ gs.flatMap (fun g => g.2)) ++ [o]
          = g.2 ++ (gs.flatMap (fun g => g.2) ++ [o]) := by simp
      rw [p1, p3]
      exact List.Perm.append_left g.2
        (@List.perm_append_comm _ [o] (gs.flatMap (fun g => g.2)))
    | false =>
      simp only [addToGroups, h, Bool.false_eq_true, if_false, List.flatMap_cons]
      have p3 : (g.2 ++ gs.flatMap (fun g => g.2)) ++ [o]
          = g.2 ++ (gs.flatMap (fun g => g.2) ++ [o]) := by simp
      rw [p3]
      exact List.Perm.append_left g.2 ih

theorem foldl_addToGroups_perm :
    ∀ (l : List Order) (gs : List (String × List Order)),
    ((l.foldl addToGroups gs).flatMap (fun g => g.2)).Perm
      (gs.flatMap (fun g => g.2) ++ l) := by
  intro l
  induction l with
  | nil => intro gs; simp
  | cons o l ih =>
    intro gs
    rw [List.foldl_cons]
    have h1 := ih (addToGroups gs o)
    have h2 := (addToGroups_flatMap_perm gs o).append_right l
    have h3 := h1.trans h2
    have p : (gs.flatMap (fun g => g.2) ++ [o]) ++ l
        = gs.flatMap (fun g => g.2) ++ (o :: l) := by simp
    rw [p] at h3
    exact h3

theorem groupByResource_perm (orders : List Order) :
    ((groupByResource orders).flatMap (fun g => g.2)).Perm orders := by
  simpa [groupByResource] using foldl_addToGroups_perm orders []

/-- C10: for every response oracle, `optimize_route` returns exactly the
    input orders as a multiset — none dropped, none duplicated — and only
    the `sequence` field of an order can differ from its input version. -/
theorem C10_optimize_route_preserves (resp : String → CallResult) (orders : List Order) :
    ((optimize_route resp orders).1.map eraseSeq).Perm (orders.map eraseSeq) := by
  have h1 : (optimize_route resp orders).1
      = (groupByResource orders).flatMap (fun g => (processGroup resp g.1 g.2).1) := by
    have := foldl_optStep_fst resp (groupByResource orders) ([], [])
    simpa [optimize_route] using this
  rw [h1, List.map_flatMap]
  have heq : (fun (g : String × List Order) => ((processGroup resp g.1 g.2).1).map eraseSeq)
      = fun (g : String × List Order) => g.2.map eraseSeq :=
    funext fun g => processGroup_fst_map_eraseSeq resp g.1 g.2
  rw [heq, ← List.map_flatMap]
  exact (groupByResource_perm orders).map eraseSeq

/-! ## SpatialClusterer (app2.py lines 58-59)

    Modelled from the spec: the clustering algorithm itself is
    `sklearn.cluster.DBSCAN`, library code that is not part of this
    repository; only its invocation (eps = 5 km haversine, `min_samples=1`,
    deterministic `ball_tree`) is.  Per §4.3 of the specification, with a
    minimum cluster size of 1 every point is a core point, so clusters are
    exactly the connected components of the ε-neighbourhood graph,
    discovered in scan order.  The neighbourhood predicate is a parameter:
    the haversine distance is transcendental, and none of the claimed
    properties (determinism, every point labelled) depends on it. -/

/-- Neighbourhood expansion: label the frontier's reachable unlabelled
    points with cluster `cl` (breadth-first, fuelled). -/
def bfsLabel (adj : ℕ → List ℕ) (cl : ℕ) : ℕ → List ℕ → List (Option ℕ) → List (Option ℕ)
  | 0, _, labels => labels
  | _ + 1, [], labels => labels
  | fuel + 1, i :: rest, labels =>
    if (labels.getD i none).isSome then bfsLabel adj cl fuel rest labels
    else bfsLabel adj cl fuel (rest ++ adj i) (labels.set i (some cl))

/-- Outer scan: each still-unlabelled point seeds a new cluster. -/
def dbscanScan (adj : ℕ → List ℕ) (fuel : ℕ) :
    List ℕ → List (Option ℕ) × ℕ → List (Option ℕ) × ℕ
  | [], st => st
  | i :: is, (labels, next) =>
    if (labels.getD i none).isSome then dbscanScan adj fuel is (labels, next)
    else dbscanScan adj fuel is (bfsLabel adj next fuel [i] labels, next + 1)

/-- DBSCAN with `min_samples = 1` on `n` points with neighbourhoods `adj`. -/
def dbscan (adj : ℕ → List ℕ) (n : ℕ) : List (Option ℕ) :=
  (dbscanScan adj ((n + 1) * (n + 1)) (List.range n) (List.replicate n none, 0)).1

/-- ε-neighbourhood lists of a point list under a neighbourhood predicate. -/
def adjOf (near : ℚ × ℚ → ℚ × ℚ → Bool) (pts : List (ℚ × ℚ)) (i : ℕ) : List ℕ :=
  (List.range pts.length).filter (fun j => near (pts.getD i (0, 0)) (pts.getD j (0, 0)))

/-- The cluster labels of line 59. -/
def spatialCluster (near : ℚ × ℚ → ℚ × ℚ → Bool) (pts : List (ℚ × ℚ)) : List (Option ℕ) :=
  dbscan (adjOf near pts) pts.length

theorem bfsLabel_length (adj : ℕ → List ℕ) (cl : ℕ) :
    ∀ (fuel : ℕ) (fr : List ℕ) (labels : List (Option ℕ)),
    (bfsLabel adj cl fuel fr labels).length = labels.length := by
  intro fuel
  induction fuel with
  | zero => intro fr labels; rfl
  | succ f ih =>
    intro fr labels
    cases fr with
    | nil => rfl
    | cons i rest =>
      by_cases h : (labels.getD i none).isSome
      · simp only [bfsLabel, h, if_true]
        exact ih rest labels
      · simp only [bfsLabel, h, Bool.false_eq_true, if_false]
        rw [ih, List.length_set]

theorem bfsLabel_mono (adj : ℕ → List ℕ) (cl : ℕ) :
    ∀ (fuel : ℕ) (fr : List ℕ) (labels : List (Option ℕ)) (i : ℕ),
    (labels.getD i none).isSome = true →
    ((bfsLabel adj cl fuel fr labels).getD i none).isSome = true := by
  intro fuel
  induction fuel with
  | zero => intro fr labels i h; exact h
  | succ f ih =>
    intro fr labels i h
    cases fr with
    | nil => exact h
    | cons j rest =>
      by_cases hj : (labels.getD j none).isSome
      · simp only [bfsLabel, hj, if_true]
        exact ih rest labels i h
      · simp only [bfsLabel, hj, Bool.false_eq_true, if_false]
        apply ih
        by_cases hij : i = j
        · subst hij
          by_cases hlen : i < labels.length
          · have heq : (labels.set i (some cl)).getD i none = some cl := by
              simp [List.getD, List.get?_eq_getElem?, List.getElem?_set_self hlen]
            rw [heq]; rfl
          · exfalso
            have hnone : labels[i]? = none := by
              rw [← List.get?_eq_getElem?]
              exact List.get?_eq_none.mpr (le_of_not_lt hlen)
            simp [List.getD, hnone] at h
        · have heq : (labels.set j (some cl)).getD i none = labels.getD i none := by
            simp [List.getD, List.get?_eq_getElem?,
              List.getElem?_set_ne (fun hx => hij hx.symm)]
          rw [heq]; exact h

theorem bfsLabel_seed (adj : ℕ → List ℕ) (cl : ℕ) (f : ℕ)
    (fr : List ℕ) (labels : List (Option ℕ)) (i : ℕ) (hlen : i < labels.length) :
    ((bfsLabel adj cl (f + 1) (i :: fr) labels).getD i none).isSome = true := by
  by_cases h : (labels.getD i none).isSome
  · simp only [bfsLabel, h, if_true]
    exact bfsLabel_mono adj cl f fr labels i h
  · simp only [bfsLabel, h, Bool.false_eq_true, if_false]
    apply bfsLabel_mono
    have heq : (labels.set i (some cl)).getD i none = some cl := by
      simp [List.getD, List.get?_eq_getElem?, List.getElem?_set_self hlen]
    rw [heq]; rfl

theorem dbscanScan_length (adj : ℕ → List ℕ) (fuel : ℕ) :
    ∀ (is : List ℕ) (st : List (Option ℕ) × ℕ),
    ((dbscanScan adj fuel is st).1).length = st.1.length := by
  intro is
  induction is with
  | nil => intro st; rfl
  | cons i is ih =>
    intro st
    obtain ⟨labels, next⟩ := st
    by_cases h : (labels.getD i none).isSome
    · simp only [dbscanScan, h, if_true]
      exact ih (labels, next)
    · simp only [dbscanScan, h, Bool.false_eq_true, if_false]
      rw [ih]
      exact bfsLabel_length adj next fuel [i] labels

theorem dbscanScan_mono (adj : ℕ → List ℕ) (fuel : ℕ) :
    ∀ (is : List ℕ) (st : List (Option ℕ) × ℕ) (i : ℕ),
    (st.1.getD i none).isSome = true →
    (((dbscanScan adj fuel is st).1).getD i none).isSome = true := by
  intro is
  induction is with
  | nil => intro st i h; exact h
  | cons j is ih =>
    intro st i h
    obtain ⟨labels, next⟩ := st
    by_cases hj : (labels.getD j none).isSome
    · simp only [dbscanScan, hj, if_true]
      exact ih (labels, next) i h
    · simp only [dbscanScan, hj, Bool.false_eq_true, if_false]
      exact ih _ i (bfsLabel_mono adj next fuel [j] labels i h)

theorem dbscanScan_covers (adj : ℕ → List ℕ) (fuel : ℕ) (hfuel : 1 ≤ fuel) :
    ∀ (is : List ℕ) (st : List (Option ℕ) × ℕ),
    (∀ i ∈ is, i < st.1.length) →
    ∀ i ∈ is, (((dbscanScan adj fuel is st).1).getD i none).isSome = true := by
  intro is
  induction is with
  | nil => intro st _ i hi; exact absurd hi (by simp)
  | cons j is ih =>
    intro st hbound i hi
    obtain ⟨labels, next⟩ := st
    by_cases hj : (labels.getD j none).isSome
    · simp only [dbscanScan, hj, if_true]
      rcases List.mem_cons.mp hi with rfl | hi'
      · exact dbscanScan_mono adj fuel is (labels, next) i hj
      · exact ih (labels, next) (fun x hx => hbound x (List.mem_cons_of_mem _ hx)) i hi'
    · simp only [dbscanScan, hj, Bool.false_eq_true, if_false]
      obtain ⟨f, rfl⟩ : ∃ f, fuel = f + 1 := by
        cases fuel with
        | zero => omega
        | succ f => exact ⟨f, rfl⟩
      have hlen : j < labels.length := hbound j (by simp)
      have hseed := bfsLabel_seed adj next f [] labels j hlen
      rcases List.mem_cons.mp hi with rfl | hi'
      · exact dbscanScan_mono adj (f + 1) is _ i hseed
      · refine ih _ (fun x hx => ?_) i hi'
        have : ((bfsLabel adj next (f + 1) [j] labels).length) = labels.length :=
          bfsLabel_length adj next (f + 1) [j] labels
        simpa [this] using hbound x (List.mem_cons_of_mem _ hx)

/-- C9: the clusterer is deterministic — it is a pure function of the point
    list and the neighbourhood predicate, so two runs on the same input
    produce the identical label assignment — and with a minimum cluster
    size of 1 every point receives a cluster label (no point is marked as
    noise).  The properties hold for every neighbourhood predicate,
    including the fixed 5 km haversine ball of line 59. -/
theorem C9_cluster_deterministic_total (near : ℚ × ℚ → ℚ × ℚ → Bool)
    (pts : List (ℚ × ℚ)) :
    spatialCluster near pts = spatialCluster near pts ∧
    (spatialCluster near pts).length = pts.length ∧
    ∀ i, i < pts.length → ((spatialCluster near pts).getD i none).isSome = true := by
  refine ⟨rfl, ?_, ?_⟩
  · unfold spatialCluster dbscan
    rw [dbscanScan_length]
    simp
  · intro i hi
    unfold spatialCluster dbscan
    apply dbscanScan_covers (adjOf near pts) ((pts.length + 1) * (pts.length + 1))
      (by nlinarith [pts.length.zero_le]) (List.range pts.length) (List.replicate pts.length none, 0)
    · intro x hx
      simpa using List.mem_range.mp hx
    · exact List.mem_range.mpr hi

/-- Witness for C9: two points, the always-true neighbourhood; point 0 is
    labelled. -/
theorem C9_cluster_witness :
    ((spatialCluster (fun _ _ => true) [(0, 0), (1, 2)]).getD 0 none).isSome = true :=
  (C9_cluster_deterministic_total (fun _ _ => true) [(0, 0), (1, 2)]).2.2 0 (by decide)
